import Mathlib

/-
  Verification development for the Auction_System repository
  (Fastify server in apps/server/src/index.ts, full variant with
  notifications / counter-offers / lifecycle sweep).

  The server's handlers are embedded as pure state-transition functions over
  an explicit `ServerState` (the rows of the auctions / bids / counter_offers /
  notifications tables).  Times are integer epoch milliseconds (the code
  compares `Date` objects and ISO strings, both of which order exactly like
  the underlying millisecond timestamps); money amounts are integer cents
  (the code manipulates JS numbers holding DECIMAL(10,2) prices, on which
  +, <, ≤ and toFixed(2) agree exactly with the cent-scaled integer
  operations used here).  Store writes that the
  code issues as separate awaited calls are modelled as separate state
  updates, with an explicit failure-injection parameter where a claim is
  about partial failure.  Row ids produced by nanoid() are taken as opaque
  strings supplied by the caller.
-/

/-- Auction.status: 'scheduled' | 'live' | 'ended' | 'closed'. -/
inductive AuctionStatus
  | scheduled
  | live
  | ended
  | closed
deriving DecidableEq, Repr

/-- A row of the auctions table (fields used by the server logic). -/
structure Auction where
  id : String
  sellerId : String
  title : String
  description : Option String
  startingPrice : ℤ
  currentPrice : ℤ
  bidIncrement : ℤ
  goLiveAt : ℤ
  endsAt : ℤ
  status : AuctionStatus
deriving DecidableEq, Repr

/-- A row of the bids table. -/
structure Bid where
  id : String
  auctionId : String
  bidderId : String
  amount : ℤ
  createdAt : ℤ
deriving DecidableEq, Repr

/-- CounterOffer.status: 'pending' | 'accepted' | 'rejected'. -/
inductive CounterStatus
  | pending
  | accepted
  | rejected
deriving DecidableEq, Repr

/-- A row of the counter_offers table. -/
structure CounterOffer where
  id : String
  auctionId : String
  sellerId : String
  buyerId : String
  amount : ℤ
  status : CounterStatus
  createdAt : ℤ
deriving DecidableEq, Repr

/-- A row of the notifications table. -/
structure NotificationRow where
  id : String
  userId : String
  ntype : String
  read : Bool
deriving DecidableEq, Repr

/-- The durable store contents, rows kept in insertion order. -/
structure ServerState where
  auctions : List Auction
  bids : List Bid
  counterOffers : List CounterOffer
  notifications : List NotificationRow
deriving DecidableEq, Repr

def emptyState : ServerState := ⟨[], [], [], []⟩

/-- select * from auctions where id = aid (single row; ids are a primary key,
    so the first match is the row). -/
def findAuction (s : ServerState) (aid : String) : Option Auction :=
  s.auctions.find? (fun a => a.id == aid)

/-- select * from bids where auctionId = aid, in insertion order. -/
def bidsOf (s : ServerState) (aid : String) : List Bid :=
  s.bids.filter (fun b => b.auctionId == aid)

/-- select * from counter_offers where id = cid (single row). -/
def findCounter (s : ServerState) (cid : String) : Option CounterOffer :=
  s.counterOffers.find? (fun c => c.id == cid)

def statusOf (s : ServerState) (aid : String) : Option AuctionStatus :=
  (findAuction s aid).map (fun a => a.status)

def counterStatusOf (s : ServerState) (cid : String) : Option CounterStatus :=
  (findCounter s cid).map (fun c => c.status)

/-- Accumulator step for `order by createdAt descending, limit 1`: keep the
    row with the later createdAt.  The store leaves the relative order of
    equal-createdAt rows unspecified; this model determinizes that choice
    toward the later-inserted row, so results that need agreement between
    this selector and the amount-based one assume strictly increasing
    createdAt (StrictBidStep) rather than relying on the tie-break. -/
def laterByCreated (acc : Option Bid) (b : Bid) : Option Bid :=
  match acc with
  | none => some b
  | some x => if x.createdAt ≤ b.createdAt then some b else some x

/-- Store query `order by createdAt descending, limit 1` (used by the
    counter-offer creation handler and the lifecycle sweep). -/
def latestBid (l : List Bid) : Option Bid :=
  l.foldl laterByCreated none

/-- Accumulator step for `order by amount descending, limit 1`: keep the row
    with the greater amount, ties resolved towards the later createdAt and
    then the later-inserted row. -/
def betterByAmount (acc : Option Bid) (b : Bid) : Option Bid :=
  match acc with
  | none => some b
  | some x =>
      if x.amount < b.amount ∨ (x.amount = b.amount ∧ x.createdAt ≤ b.createdAt)
      then some b else some x

/-- Store query `order by amount descending, limit 1` (used by the decision
    handler and the previous-top-bidder lookup of placeBid). -/
def topBidByAmount (l : List Bid) : Option Bid :=
  l.foldl betterByAmount none

/-- Accumulator step for the spec's top-bid selection: greatest amount, ties
    broken by latest createdAt. -/
def specBetter (acc : Option Bid) (b : Bid) : Option Bid :=
  match acc with
  | none => some b
  | some x =>
      if x.amount < b.amount ∨ (x.amount = b.amount ∧ x.createdAt ≤ b.createdAt)
      then some b else some x

/-- Modelled from the spec (§3 data model): the top bid is the bid with the
    greatest amount, ties broken by latest createdAt.  Used only to compare,
    per claim, against the selection the code actually performs. -/
def topBidSpec (l : List Bid) : Option Bid :=
  l.foldl specBetter none

/-- Two-decimal rendering of a cent amount, as produced by the code's
    Number.prototype.toFixed(2) on the corresponding dollar value (toFixed
    is exact on cent-valued numbers in the store's DECIMAL(10,2) range). -/
def formatFixed2 (cents : ℤ) : String :=
  let whole := cents / 100
  let frac := (cents % 100).toNat
  toString whole ++ "." ++ (if frac < 10 then ("0") ++ toString frac else toString frac)

/-- update auctions set currentPrice = amount where id = aid. -/
def updateAuctionPrice (s : ServerState) (aid : String) (amount : ℤ) : ServerState :=
  { s with auctions :=
      s.auctions.map (fun a => if a.id == aid then { a with currentPrice := amount } else a) }

/-- update auctions set status = 'closed' where id = aid. -/
def closeAuction (s : ServerState) (aid : String) : ServerState :=
  { s with auctions :=
      s.auctions.map (fun a => if a.id == aid then { a with status := AuctionStatus.closed } else a) }

/-- insert into bids. -/
def insertBid (s : ServerState) (b : Bid) : ServerState :=
  { s with bids := s.bids ++ [b] }

/-- insert into counter_offers. -/
def insertCounter (s : ServerState) (c : CounterOffer) : ServerState :=
  { s with counterOffers := s.counterOffers ++ [c] }

/-- insert into auctions. -/
def appendAuction (s : ServerState) (a : Auction) : ServerState :=
  { s with auctions := s.auctions ++ [a] }

/-- update counter_offers set status = st where id = cid. -/
def setCounterStatus (s : ServerState) (cid : String) (st : CounterStatus) : ServerState :=
  { s with counterOffers :=
      s.counterOffers.map (fun c => if c.id == cid then { c with status := st } else c) }

/- ------------------------------------------------------------------ -/
/- Bid engine: POST /api/auctions/:id/bids                            -/
/- ------------------------------------------------------------------ -/

/-- Failure injection for the two separate store writes the commit path
    issues (`update auctions set currentPrice` then `insert into bids`). -/
structure StoreBehavior where
  updateFails : Bool
  insertFails : Bool
deriving DecidableEq, Repr

def noFail : StoreBehavior := ⟨false, false⟩

inductive BidError
  | notFound
  | sellerOwnAuction
  | notActive
  | belowMinimum (minBid : ℤ)
  | storeFailure
deriving DecidableEq, Repr

/-- The human-readable message the handler sends for each failure. -/
def bidErrorMessage : BidError → String
  | BidError.notFound => "Auction not found"
  | BidError.sellerOwnAuction => "Sellers cannot bid on their own auction"
  | BidError.notActive => "Auction is not active"
  | BidError.belowMinimum m => "Minimum bid is " ++ formatFixed2 m
  | BidError.storeFailure => "Failed to place bid"

structure BidOut where
  state : ServerState
  notified : List (String × String)
  result : Except BidError Unit
deriving Repr

/-- POST /api/auctions/:id/bids.  Checks in source order: auction exists
    (404), seller self-bid (403), `now > endsAt || status !== 'live'` (400
    "Auction is not active"), `amount < currentPrice + bidIncrement` (400
    "Minimum bid is <minBid>").  Commit: update currentPrice, then insert the
    Bid row, as two separate store writes; `behavior` injects a failure into
    either write (a thrown store error is caught by the handler and returned
    as a 500).  `notified` records the notify() calls made after a commit:
    seller gets 'new_bid', and the previous top bidder (amount-descending
    lookup made before the write) gets 'outbid' when different from the new
    bidder.  The optional advisory Redis lock is a no-op on state and is not
    modelled. -/
def placeBid (behavior : StoreBehavior) (s : ServerState)
    (aid bidderId bidId : String) (amount : ℤ) (now : ℤ) : BidOut :=
  match findAuction s aid with
  | none => ⟨s, [], Except.error BidError.notFound⟩
  | some auction =>
    if auction.sellerId = bidderId then ⟨s, [], Except.error BidError.sellerOwnAuction⟩
    else if now > auction.endsAt ∨ auction.status ≠ AuctionStatus.live then
      ⟨s, [], Except.error BidError.notActive⟩
    else
      let minBid := auction.currentPrice + auction.bidIncrement
      if amount < minBid then ⟨s, [], Except.error (BidError.belowMinimum minBid)⟩
      else
        let prevTopBidder := (topBidByAmount (bidsOf s aid)).map (fun b => b.bidderId)
        if behavior.updateFails then ⟨s, [], Except.error BidError.storeFailure⟩
        else
          let s1 := updateAuctionPrice s aid amount
          if behavior.insertFails then ⟨s1, [], Except.error BidError.storeFailure⟩
          else
            let s2 := insertBid s1 ⟨bidId, aid, bidderId, amount, now⟩
            let outbidNote :=
              match prevTopBidder with
              | some p => if p ≠ bidderId then [(p, "outbid")] else []
              | none => []
            ⟨s2, [(auction.sellerId, "new_bid")] ++ outbidNote, Except.ok ()⟩

/- ------------------------------------------------------------------ -/
/- Negotiation engine                                                 -/
/- ------------------------------------------------------------------ -/

inductive Decision
  | accept
  | reject
deriving DecidableEq, Repr

inductive DecideError
  | notFound
  | forbidden
  | notEnded
  | noBids
deriving DecidableEq, Repr

structure DecideOut where
  state : ServerState
  notified : List (String × String)
  result : Except DecideError Unit
deriving Repr

/-- POST /api/auctions/:id/decision.  Checks in source order: auction exists
    (404), sellerId matches (403), status === 'ended' (400), a top bid exists
    (amount-descending lookup, 400 "No bids").  Then notifies the winner and
    the seller and sets the auction's status to 'closed'. -/
def decideAuction (s : ServerState) (aid actorId : String) (d : Decision) : DecideOut :=
  match findAuction s aid with
  | none => ⟨s, [], Except.error DecideError.notFound⟩
  | some auction =>
    if auction.sellerId ≠ actorId then ⟨s, [], Except.error DecideError.forbidden⟩
    else if auction.status ≠ AuctionStatus.ended then ⟨s, [], Except.error DecideError.notEnded⟩
    else
      match topBidByAmount (bidsOf s aid) with
      | none => ⟨s, [], Except.error DecideError.noBids⟩
      | some topBid =>
        let notes :=
          match d with
          | Decision.accept => [(topBid.bidderId, "bid_accepted"), (auction.sellerId, "auction_closed")]
          | Decision.reject => [(topBid.bidderId, "bid_rejected"), (auction.sellerId, "auction_closed")]
        ⟨closeAuction s aid, notes, Except.ok ()⟩

inductive CounterCreateError
  | invalidAmount
  | notFound
  | forbidden
  | noBids
deriving DecidableEq, Repr

structure CounterCreateOut where
  state : ServerState
  notified : List (String × String)
  result : Except CounterCreateError Unit
deriving Repr

/-- POST /api/auctions/:id/counter-offers.  Body validation `amount ≥ 0.01`
    (zod), then: auction exists (404), sellerId matches (403), a bid exists —
    looked up with `order by createdAt descending, limit 1` (400 "No bids to
    counter").  Inserts a pending counter-offer row whose buyerId is that
    bid's bidderId and notifies that bidder with 'counter_offer'.  Note the
    handler never inspects the auction's status. -/
def createCounterOffer (s : ServerState) (aid actorId newCounterId : String)
    (amount : ℤ) (now : ℤ) : CounterCreateOut :=
  if amount < 1 then ⟨s, [], Except.error CounterCreateError.invalidAmount⟩
  else
    match findAuction s aid with
    | none => ⟨s, [], Except.error CounterCreateError.notFound⟩
    | some auction =>
      if auction.sellerId ≠ actorId then ⟨s, [], Except.error CounterCreateError.forbidden⟩
      else
        match latestBid (bidsOf s aid) with
        | none => ⟨s, [], Except.error CounterCreateError.noBids⟩
        | some topBid =>
          let row : CounterOffer :=
            ⟨newCounterId, aid, actorId, topBid.bidderId, amount, CounterStatus.pending, now⟩
          ⟨insertCounter s row, [(topBid.bidderId, "counter_offer")], Except.ok ()⟩

inductive RespondError
  | notFound
  | forbidden
deriving DecidableEq, Repr

structure RespondOut where
  state : ServerState
  notified : List (String × String)
  result : Except RespondError Unit
deriving Repr

def counterNoteType : CounterStatus → String
  | CounterStatus.pending => "counter_pending"
  | CounterStatus.accepted => "counter_accepted"
  | CounterStatus.rejected => "counter_rejected"

/-- POST /api/counter-offers/:counterId/respond.  Checks: counter exists
    (404), actor is the counter's buyer or seller (403).  Then sets the
    counter's status to accepted/rejected — the current status is never
    inspected — notifies both parties with counter_<status>, and in both
    branches updates the parent auction's status to 'closed' (in the accept
    branch the code first re-reads the auction and skips the update when the
    row is gone; an id-conditioned update on a missing row is the same
    no-op, so both branches are modelled with closeAuction). -/
def respondCounterOffer (s : ServerState) (cid actorId : String) (d : Decision) : RespondOut :=
  match findCounter s cid with
  | none => ⟨s, [], Except.error RespondError.notFound⟩
  | some co =>
    if co.buyerId ≠ actorId ∧ co.sellerId ≠ actorId then
      ⟨s, [], Except.error RespondError.forbidden⟩
    else
      let st := match d with
        | Decision.accept => CounterStatus.accepted
        | Decision.reject => CounterStatus.rejected
      let s1 := setCounterStatus s cid st
      let s2 := closeAuction s1 co.auctionId
      ⟨s2, [(co.sellerId, counterNoteType st), (co.buyerId, counterNoteType st)], Except.ok ()⟩

/- ------------------------------------------------------------------ -/
/- Lifecycle scheduler: the 30s setInterval sweep                     -/
/- ------------------------------------------------------------------ -/

inductive RtMsg
  | auctionLive (aid : String)
  | auctionEnded (aid : String)
deriving DecidableEq, Repr

structure SweepOut where
  state : ServerState
  broadcasts : List RtMsg
  notified : List (String × String × String)
deriving DecidableEq, Repr

def promoteDue (now : ℤ) (a : Auction) : Auction :=
  if a.status = AuctionStatus.scheduled ∧ a.goLiveAt ≤ now
  then { a with status := AuctionStatus.live } else a

def endExpired (now : ℤ) (a : Auction) : Auction :=
  if a.status = AuctionStatus.live ∧ a.endsAt < now
  then { a with status := AuctionStatus.ended } else a

/-- One tick of the background interval.  First pass: select auctions with
    status 'scheduled' and goLiveAt ≤ now, set them 'live', broadcast
    auction:live per id.  Second pass (a fresh select, so it sees the rows
    just promoted): select auctions with status 'live' and endsAt < now, set
    them 'ended', broadcast auction:ended per id, and for each notify the
    bidder of the latest bid (createdAt-descending lookup) with
    'auction_ended'.  The id-batched updates are written here as
    row-conditional maps, which coincide because id is the primary key.
    `notified` entries are (userId, type, auctionId). -/
def sweep (s : ServerState) (now : ℤ) : SweepOut :=
  let toLive := s.auctions.filter (fun a => decide (a.status = AuctionStatus.scheduled ∧ a.goLiveAt ≤ now))
  let s1 : ServerState := { s with auctions := s.auctions.map (promoteDue now) }
  let liveMsgs := toLive.map (fun a => RtMsg.auctionLive a.id)
  let expired := s1.auctions.filter (fun a => decide (a.status = AuctionStatus.live ∧ a.endsAt < now))
  let s2 : ServerState := { s1 with auctions := s1.auctions.map (endExpired now) }
  let endMsgs := expired.map (fun a => RtMsg.auctionEnded a.id)
  let notes := expired.filterMap (fun a =>
    (latestBid (bidsOf s1 a.id)).map (fun b => (b.bidderId, "auction_ended", a.id)))
  ⟨s2, liveMsgs ++ endMsgs, notes⟩

/- ------------------------------------------------------------------ -/
/- Notification fanout and the notifications API                      -/
/- ------------------------------------------------------------------ -/

/-- Outcome of the best-effort persisted write inside notify(): the service
    client may be unconfigured (no write attempted), the write may succeed,
    or the store may fail (missing table, transient error, RLS). -/
inductive PersistOutcome
  | success
  | failure
  | notConfigured
deriving DecidableEq, Repr

inductive NotifyEvent
  | broadcast (userId ntype : String)
  | persisted (userId ntype : String)
deriving DecidableEq, Repr

/-- The fallible insert into the notifications table. -/
def persistNotification (outcome : PersistOutcome) (s : ServerState)
    (n : NotificationRow) : Except String ServerState :=
  match outcome with
  | PersistOutcome.success => Except.ok { s with notifications := s.notifications ++ [n] }
  | PersistOutcome.failure => Except.error "store error"
  | PersistOutcome.notConfigured => Except.ok s

/-- notify(userId, type, payload): broadcasts the realtime notification
    message first and unconditionally, then attempts the persisted write in
    a try/catch whose catch ignores the error, so the function is total and
    always returns the (possibly unchanged) state. -/
def notify (outcome : PersistOutcome) (s : ServerState)
    (nid userId ntype : String) : ServerState × List NotifyEvent :=
  let broadcastEvents := [NotifyEvent.broadcast userId ntype]
  match persistNotification outcome s ⟨nid, userId, ntype, false⟩ with
  | Except.ok s1 =>
      (s1, broadcastEvents ++
        (if outcome = PersistOutcome.success then [NotifyEvent.persisted userId ntype] else []))
  | Except.error _ => (s, broadcastEvents)

/-- POST /api/notifications/:id/read: update notifications set read = true
    where id = nid and userId = callerId, then reply {ok: true}.  An update
    matching zero rows is not a store error, so the handler's catch branch
    (which would reply {ok: false}) is reachable only through a thrown
    transport/store exception, outside this model. -/
def markNotificationRead (s : ServerState) (callerId nid : String) : ServerState × Bool :=
  let s1 : ServerState :=
    { s with notifications :=
        s.notifications.map (fun n =>
          if n.id = nid ∧ n.userId = callerId then { n with read := true } else n) }
  (s1, true)

/- ------------------------------------------------------------------ -/
/- System runs                                                        -/
/- ------------------------------------------------------------------ -/

/-- zod CreateAuctionSchema body. -/
structure CreateAuctionInput where
  title : String
  description : Option String
  startingPrice : ℤ
  bidIncrement : ℤ
  goLiveAt : ℤ
  durationMinutes : ℕ
deriving DecidableEq, Repr

/-- CreateAuctionSchema.parse: title 1..200 chars, description ≤ 1000,
    startingPrice ≥ 0, bidIncrement ≥ 0.01 (one cent), durationMinutes an integer in
    1..10080. -/
def validCreateInput (i : CreateAuctionInput) : Bool :=
  decide (1 ≤ i.title.length) && decide (i.title.length ≤ 200) &&
  i.description.all (fun d => decide (d.length ≤ 1000)) &&
  decide (0 ≤ i.startingPrice) && decide (1 ≤ i.bidIncrement) &&
  decide (1 ≤ i.durationMinutes) && decide (i.durationMinutes ≤ 10080)

inductive CreateError
  | invalidInput
deriving DecidableEq, Repr

/-- POST /api/auctions: after validation, endsAt := goLiveAt +
    durationMinutes*60*1000 and the row is inserted with currentPrice =
    startingPrice and status 'live' when now ≥ goLiveAt, else 'scheduled'. -/
def createAuction (s : ServerState) (sellerId newId : String)
    (i : CreateAuctionInput) (now : ℤ) : ServerState × Except CreateError Auction :=
  if validCreateInput i then
    let endsAt := i.goLiveAt + (i.durationMinutes : ℤ) * 60000
    let a : Auction :=
      { id := newId, sellerId := sellerId, title := i.title, description := i.description,
        startingPrice := i.startingPrice, currentPrice := i.startingPrice,
        bidIncrement := i.bidIncrement, goLiveAt := i.goLiveAt, endsAt := endsAt,
        status := if i.goLiveAt ≤ now then AuctionStatus.live else AuctionStatus.scheduled }
    (appendAuction s a, Except.ok a)
  else (s, Except.error CreateError.invalidInput)

/-- One request or timer tick, with the data it carries. -/
inductive Op
  | create (sellerId newId : String) (i : CreateAuctionInput) (now : ℤ)
  | bid (behavior : StoreBehavior) (aid bidderId bidId : String) (amount : ℤ) (now : ℤ)
  | sweepTick (now : ℤ)
  | decide (aid actorId : String) (d : Decision)
  | counter (aid actorId newCounterId : String) (amount : ℤ) (now : ℤ)
  | respond (cid actorId : String) (d : Decision)

/-- The store state after an operation. -/
def applyOp (s : ServerState) : Op → ServerState
  | Op.create sellerId newId i now => (createAuction s sellerId newId i now).1
  | Op.bid behavior aid bidderId bidId amount now =>
      (placeBid behavior s aid bidderId bidId amount now).state
  | Op.sweepTick now => (sweep s now).state
  | Op.decide aid actorId d => (decideAuction s aid actorId d).state
  | Op.counter aid actorId cid amount now => (createCounterOffer s aid actorId cid amount now).state
  | Op.respond cid actorId d => (respondCounterOffer s cid actorId d).state

/-- Wall-clock instant an operation reads (new Date()), when it reads one. -/
def opNow : Op → Option ℤ
  | Op.create _ _ _ n => some n
  | Op.bid _ _ _ _ _ n => some n
  | Op.sweepTick n => some n
  | Op.decide _ _ _ => none
  | Op.counter _ _ _ _ n => some n
  | Op.respond _ _ _ => none

/-- States reachable from the empty store by a run of operations whose
    wall-clock reads are non-decreasing; the ℤ component bounds every
    timestamp read so far. -/
inductive Reachable : ServerState → ℤ → Prop
  | init (t : ℤ) : Reachable emptyState t
  | step (s : ServerState) (t : ℤ) (op : Op) (h : Reachable s t)
      (ht : ∀ n, opNow op = some n → t ≤ n) :
      Reachable (applyOp s op) ((opNow op).getD t)

/- ------------------------------------------------------------------ -/
/- Helper lemmas                                                      -/
/- ------------------------------------------------------------------ -/

theorem findAuction_map (s : ServerState) (aid : String) (f : Auction → Auction)
    (hid : ∀ a, (f a).id = a.id) :
    findAuction { s with auctions := s.auctions.map f } aid = (findAuction s aid).map f := by
  unfold findAuction
  rw [List.find?_map]
  have : ((fun a => a.id == aid) ∘ f) = (fun a => a.id == aid) := by
    funext a
    simp [hid a]
  rw [this]

theorem findCounter_map (s : ServerState) (cid : String) (f : CounterOffer → CounterOffer)
    (hid : ∀ c, (f c).id = c.id) :
    findCounter { s with counterOffers := s.counterOffers.map f } cid
      = (findCounter s cid).map f := by
  unfold findCounter
  rw [List.find?_map]
  have : ((fun c => c.id == cid) ∘ f) = (fun c => c.id == cid) := by
    funext c
    simp [hid c]
  rw [this]

theorem findAuction_append (s : ServerState) (aid : String) (a2 : Auction) (a : Auction)
    (h : findAuction s aid = some a) :
    findAuction (appendAuction s a2) aid = some a := by
  unfold findAuction at h ⊢
  unfold appendAuction
  simp only [List.find?_append, h, Option.or]

theorem statusOf_map (s : ServerState) (aid : String) (f : Auction → Auction)
    (hid : ∀ a, (f a).id = a.id) :
    statusOf { s with auctions := s.auctions.map f } aid
      = (findAuction s aid).map (fun a => (f a).status) := by
  unfold statusOf
  rw [findAuction_map s aid f hid, Option.map_map]
  rfl

/- Concrete names used by witness states. -/

def uSeller : String := "seller-1"

def uBuyer : String := "buyer-1"

def uBuyer2 : String := "buyer-2"

def aid1 : String := "auction-1"

def bidId1 : String := "bid-1"

def bidId2 : String := "bid-2"

def cid1 : String := "counter-1"

def nid1 : String := "notif-1"

/- ------------------------------------------------------------------ -/
/- C8: creation-time scheduled-skip rule                              -/
/- ------------------------------------------------------------------ -/

/-- C8: creating an auction whose goLiveAt is ≤ the creation time inserts it
    with status live immediately, and otherwise with status scheduled; the
    inserted row is exactly the returned auction appended to the store. -/
theorem createAuction_skip_scheduled (s : ServerState) (sellerId newId : String)
    (i : CreateAuctionInput) (now : ℤ) (a : Auction)
    (hok : (createAuction s sellerId newId i now).2 = Except.ok a) :
    a.status = (if i.goLiveAt ≤ now then AuctionStatus.live else AuctionStatus.scheduled) ∧
    (createAuction s sellerId newId i now).1 = appendAuction s a := by
  unfold createAuction at hok ⊢
  by_cases hv : validCreateInput i = true
  · simp only [hv, if_true] at hok ⊢
    cases hok
    exact ⟨rfl, rfl⟩
  · simp [hv] at hok

def wCreateInput : CreateAuctionInput :=
  { title := "Vintage Camera", description := none, startingPrice := 5000,
    bidIncrement := 500, goLiveAt := 1000, durationMinutes := 60 }

def wCreatedAuction : Auction :=
  { id := aid1, sellerId := uSeller, title := "Vintage Camera", description := none,
    startingPrice := 5000, currentPrice := 5000, bidIncrement := 500,
    goLiveAt := 1000, endsAt := 1000 + 60 * 60000, status := AuctionStatus.live }

/-- C8 witness: create auction(goLiveAt = now = 1000) yields status live
    immediately. -/
theorem createAuction_skip_scheduled_witness :
    wCreatedAuction.status
        = (if wCreateInput.goLiveAt ≤ (1000 : ℤ) then AuctionStatus.live else AuctionStatus.scheduled) ∧
    (createAuction emptyState uSeller aid1 wCreateInput 1000).1 = appendAuction emptyState wCreatedAuction :=
  createAuction_skip_scheduled emptyState uSeller aid1 wCreateInput 1000 wCreatedAuction rfl

/- ------------------------------------------------------------------ -/
/- C9: notify broadcasts first, persistence failures swallowed        -/
/- ------------------------------------------------------------------ -/

/-- C9: notify always returns normally (it is a total function into plain
    pairs), emits the realtime broadcast first and unconditionally for every
    persistence outcome, and a persistence failure leaves the state unchanged
    rather than propagating: the caller's primary operation is never failed
    by notification persistence. -/
theorem notify_broadcast_unconditional (outcome : PersistOutcome) (s : ServerState)
    (nid userId ntype : String) :
    ((notify outcome s nid userId ntype).2).head? = some (NotifyEvent.broadcast userId ntype) ∧
    (notify outcome s nid userId ntype).1
      = (if outcome = PersistOutcome.success
         then { s with notifications := s.notifications ++ [⟨nid, userId, ntype, false⟩] }
         else s) := by
  cases outcome <;> simp [notify, persistNotification]

/- ------------------------------------------------------------------ -/
/- C10: mark-notification-read is an unconditional success            -/
/- ------------------------------------------------------------------ -/

/-- C10: marking a notification read replies ok for every caller and id; the
    update is filtered by both id and the caller's userId, so when no
    notification matches both, the store is untouched (silent no-op reporting
    success), and there is no not-found or authorization failure. -/
theorem markNotificationRead_always_ok (s : ServerState) (callerId nid : String) :
    (markNotificationRead s callerId nid).2 = true ∧
    ((∀ n ∈ s.notifications, ¬(n.id = nid ∧ n.userId = callerId)) →
      (markNotificationRead s callerId nid).1 = s) := by
  refine ⟨rfl, fun h => ?_⟩
  unfold markNotificationRead
  have heq : s.notifications.map (fun n =>
      if n.id = nid ∧ n.userId = callerId then { n with read := true } else n)
      = s.notifications.map id := by
    apply List.map_congr_left
    intro n hn
    simp [h n hn]
  simp only [heq, List.map_id]

def wNotifState : ServerState := ⟨[], [], [], [⟨nid1, uBuyer, "outbid", false⟩]⟩

/-- C10 witness: marking a notification that belongs to a different user
    still reports success and changes nothing. -/
theorem markNotificationRead_always_ok_witness :
    (markNotificationRead wNotifState uSeller nid1).2 = true ∧
    (markNotificationRead wNotifState uSeller nid1).1 = wNotifState :=
  ⟨(markNotificationRead_always_ok wNotifState uSeller nid1).1,
   (markNotificationRead_always_ok wNotifState uSeller nid1).2 (by decide)⟩

/- ------------------------------------------------------------------ -/
/- C2: placeBid precondition order and distinct errors               -/
/- ------------------------------------------------------------------ -/

/-- C2: placeBid checks its preconditions in source order ­— auction exists,
    bidder is not the seller, active (status live and now ≤ endsAt), amount
    at least currentPrice + bidIncrement — each violated precondition
    yielding its distinct error (the minimum-bid error carrying the computed
    minimum), and a bid passing all four is accepted. -/
theorem placeBid_precondition_order (s : ServerState) (aid bidder bidId : String)
    (amount now : ℤ) :
    (findAuction s aid = none →
      (placeBid noFail s aid bidder bidId amount now).result = Except.error BidError.notFound) ∧
    (∀ a, findAuction s aid = some a →
      (a.sellerId = bidder →
        (placeBid noFail s aid bidder bidId amount now).result
          = Except.error BidError.sellerOwnAuction) ∧
      (a.sellerId ≠ bidder → (now > a.endsAt ∨ a.status ≠ AuctionStatus.live) →
        (placeBid noFail s aid bidder bidId amount now).result
          = Except.error BidError.notActive) ∧
      (a.sellerId ≠ bidder → ¬(now > a.endsAt ∨ a.status ≠ AuctionStatus.live) →
        amount < a.currentPrice + a.bidIncrement →
        (placeBid noFail s aid bidder bidId amount now).result
          = Except.error (BidError.belowMinimum (a.currentPrice + a.bidIncrement))) ∧
      (a.sellerId ≠ bidder → ¬(now > a.endsAt ∨ a.status ≠ AuctionStatus.live) →
        ¬ amount < a.currentPrice + a.bidIncrement →
        (placeBid noFail s aid bidder bidId amount now).result = Except.ok ())) := by
  constructor
  · intro h
    simp [placeBid, h]
  · intro a ha
    refine ⟨fun h1 => ?_, fun h1 h2 => ?_, fun h1 h2 h3 => ?_, fun h1 h2 h3 => ?_⟩
    · simp [placeBid, ha, h1]
    · simp [placeBid, ha, h1, h2]
    · simp [placeBid, ha, h1, h2, h3]
    · simp [placeBid, ha, h1, h2, h3, noFail]

def wAuction : Auction :=
  ⟨aid1, uSeller, "Vintage Camera", none, 5000, 5500, 500, 0, 3600000, AuctionStatus.live⟩

def wBidState : ServerState := ⟨[wAuction], [⟨bidId1, aid1, uBuyer, 5500, 10⟩], [], []⟩

/-- C2 witness (the spec scenario): on currentPrice 55.00 with increment
    5.00, bid 56.00 is rejected with the echoed minimum "Minimum bid is
    60.00", and bid 60.00 is accepted. -/
theorem placeBid_precondition_order_witness :
    (placeBid noFail wBidState aid1 uBuyer2 bidId2 5600 20).result
      = Except.error (BidError.belowMinimum 6000) ∧
    bidErrorMessage (BidError.belowMinimum 6000) = "Minimum bid is 60.00" ∧
    (placeBid noFail wBidState aid1 uBuyer2 bidId2 6000 20).result = Except.ok () :=
  ⟨by
      have h := ((placeBid_precondition_order wBidState aid1 uBuyer2 bidId2 5600 20).2
        wAuction (by decide)).2.2.1 (by decide) (by decide) (by decide)
      simpa [wAuction] using h,
   by decide,
   ((placeBid_precondition_order wBidState aid1 uBuyer2 bidId2 6000 20).2
      wAuction (by decide)).2.2.2 (by decide) (by decide) (by decide)⟩

/- ------------------------------------------------------------------ -/
/- C3: bids strictly after endsAt are never accepted                  -/
/- ------------------------------------------------------------------ -/

/-- C3: a bid placed strictly after the auction's endsAt is never accepted,
    for every stored status value and store behavior — the activity
    precondition re-derives activity from now ≤ endsAt, not solely from
    status — and (when the bidder is not the seller, whose check precedes)
    the rejection is exactly the "Auction is not active" StateConflict. -/
theorem placeBid_after_end_rejected (behavior : StoreBehavior) (s : ServerState)
    (aid bidder bidId : String) (amount now : ℤ) (a : Auction)
    (ha : findAuction s aid = some a) (hend : a.endsAt < now) :
    (placeBid behavior s aid bidder bidId amount now).result ≠ Except.ok () ∧
    (a.sellerId ≠ bidder →
      (placeBid behavior s aid bidder bidId amount now).result
        = Except.error BidError.notActive) := by
  constructor
  · by_cases hsel : a.sellerId = bidder
    · simp [placeBid, ha, hsel]
    · simp [placeBid, ha, hsel, gt_iff_lt, hend]
  · intro hsel
    simp [placeBid, ha, hsel, gt_iff_lt, hend]

/-- C3 witness: an auction whose stored status still reads live but whose
    endsAt (100) is before now (200) rejects a bid with "Auction is not
    active". -/
theorem placeBid_after_end_rejected_witness :
    (placeBid noFail ⟨[{wAuction with endsAt := 100}], [], [], []⟩
        aid1 uBuyer2 bidId2 99999 200).result ≠ Except.ok () ∧
    (placeBid noFail ⟨[{wAuction with endsAt := 100}], [], [], []⟩
        aid1 uBuyer2 bidId2 99999 200).result = Except.error BidError.notActive :=
  ⟨(placeBid_after_end_rejected noFail ⟨[{wAuction with endsAt := 100}], [], [], []⟩
      aid1 uBuyer2 bidId2 99999 200 { wAuction with endsAt := 100 } (by decide) (by decide)).1,
   (placeBid_after_end_rejected noFail ⟨[{wAuction with endsAt := 100}], [], [], []⟩
      aid1 uBuyer2 bidId2 99999 200 { wAuction with endsAt := 100 } (by decide) (by decide)).2
     (by decide)⟩

/- ------------------------------------------------------------------ -/
/- C1: the two commit writes are not atomic                           -/
/- ------------------------------------------------------------------ -/

def wC1State : ServerState := ⟨[wAuction], [], [], []⟩

/-- C1 counterexample: a placeBid whose currentPrice update succeeds but
    whose Bid insertion fails returns a definite error, yet leaves an
    externally observable state in which currentPrice has been raised to the
    bid amount (6000) while no Bid row exists — the state the claim says can
    never exist. -/
theorem placeBid_atomicity_counterexample :
    (placeBid ⟨false, true⟩ wC1State aid1 uBuyer2 bidId2 6000 20).result
      = Except.error BidError.storeFailure ∧
    findAuction (placeBid ⟨false, true⟩ wC1State aid1 uBuyer2 bidId2 6000 20).state aid1
      = some { wAuction with currentPrice := 6000 } ∧
    bidsOf (placeBid ⟨false, true⟩ wC1State aid1 uBuyer2 bidId2 6000 20).state aid1 = [] :=
  ⟨rfl, by decide, by decide⟩

/-- C1 amended: placeBid either succeeds with both the price update and the
    bid insertion applied, or returns a definite error; but on error the
    state is not necessarily unchanged — exactly when the Bid insertion
    failed after the price update, the raised currentPrice survives with no
    corresponding Bid row.  The price update and bid insertion are two
    separate store writes, so atomicity holds only when the store does not
    fail between them. -/
theorem placeBid_commit_characterization (behavior : StoreBehavior) (s : ServerState)
    (aid bidder bidId : String) (amount now : ℤ) :
    ((placeBid behavior s aid bidder bidId amount now).result = Except.ok () →
      (placeBid behavior s aid bidder bidId amount now).state
        = insertBid (updateAuctionPrice s aid amount) ⟨bidId, aid, bidder, amount, now⟩) ∧
    ((placeBid behavior s aid bidder bidId amount now).result ≠ Except.ok () →
      (placeBid behavior s aid bidder bidId amount now).state = s ∨
      ((placeBid behavior s aid bidder bidId amount now).state = updateAuctionPrice s aid amount ∧
        behavior.insertFails = true)) := by
  unfold placeBid
  cases hfa : findAuction s aid with
  | none => simp
  | some a =>
    simp only []
    split_ifs with h1 h2 h3 h4 h5 <;> simp_all

/-- C1 amended witness: at the counterexample input the error branch holds
    with the price-only partial state. -/
theorem placeBid_commit_characterization_witness :
    (placeBid ⟨false, true⟩ wC1State aid1 uBuyer2 bidId2 6000 20).state = wC1State ∨
    ((placeBid ⟨false, true⟩ wC1State aid1 uBuyer2 bidId2 6000 20).state
        = updateAuctionPrice wC1State aid1 6000 ∧
      (⟨false, true⟩ : StoreBehavior).insertFails = true) :=
  (placeBid_commit_characterization ⟨false, true⟩ wC1State aid1 uBuyer2 bidId2 6000 20).2
    (by intro h; exact Except.noConfusion h)

/- ------------------------------------------------------------------ -/
/- C5: counter-offer outcome is not one-shot                          -/
/- ------------------------------------------------------------------ -/

def wCounter : CounterOffer := ⟨cid1, aid1, uSeller, uBuyer, 6000, CounterStatus.pending, 0⟩

def wC5State : ServerState := ⟨[], [], [wCounter], []⟩

def wC5State1 : ServerState := (respondCounterOffer wC5State cid1 uBuyer Decision.accept).state

/-- C5 counterexample: after a counter-offer has been accepted, a second
    respondCounterOffer call still succeeds and flips its status to rejected
    — the outcome transition is not one-shot. -/
theorem respondCounterOffer_flips_terminal_status :
    counterStatusOf wC5State1 cid1 = some CounterStatus.accepted ∧
    (respondCounterOffer wC5State1 cid1 uBuyer Decision.reject).result = Except.ok () ∧
    counterStatusOf (respondCounterOffer wC5State1 cid1 uBuyer Decision.reject).state cid1
      = some CounterStatus.rejected :=
  ⟨by decide, rfl, by decide⟩

/-- C5 amended: respondCounterOffer sets the counter's status to
    accepted/rejected according to the decision whenever the counter exists
    and the actor is its buyer or seller, regardless of the current status:
    the status never returns to pending, but later respond calls can flip it
    between the two terminal states. -/
theorem respondCounterOffer_sets_status (s : ServerState) (cid actor : String) (d : Decision)
    (co : CounterOffer) (hc : findCounter s cid = some co)
    (hauth : co.buyerId = actor ∨ co.sellerId = actor) :
    counterStatusOf (respondCounterOffer s cid actor d).state cid
      = some (match d with
              | Decision.accept => CounterStatus.accepted
              | Decision.reject => CounterStatus.rejected) := by
  have hcond : ¬(co.buyerId ≠ actor ∧ co.sellerId ≠ actor) := by
    rcases hauth with h | h <;> simp [h]
  have hc2 : s.counterOffers.find? (fun c => c.id == cid) = some co := hc
  have hidco : (co.id == cid) = true :=
    @List.find?_some _ (fun c => c.id == cid) co s.counterOffers hc2
  have key : ∀ st, counterStatusOf (closeAuction (setCounterStatus s cid st) co.auctionId) cid
      = some st := by
    intro st
    have h1 : counterStatusOf (closeAuction (setCounterStatus s cid st) co.auctionId) cid
        = counterStatusOf (setCounterStatus s cid st) cid := rfl
    rw [h1]
    unfold counterStatusOf setCounterStatus
    rw [findCounter_map _ _ _ (by intro c; split <;> rfl), hc]
    have hideq : co.id = cid := by simpa using hidco
    simp [hideq]
  unfold respondCounterOffer
  rw [hc]
  dsimp only
  rw [if_neg hcond]
  cases d
  · exact key CounterStatus.accepted
  · exact key CounterStatus.rejected

def wC5Accepted : CounterOffer := { wCounter with status := CounterStatus.accepted }

/-- C5 amended witness: the second respond call at the counterexample input
    lands on rejected. -/
theorem respondCounterOffer_sets_status_witness :
    counterStatusOf (respondCounterOffer wC5State1 cid1 uBuyer Decision.reject).state cid1
      = some (match Decision.reject with
              | Decision.accept => CounterStatus.accepted
              | Decision.reject => CounterStatus.rejected) :=
  respondCounterOffer_sets_status wC5State1 cid1 uBuyer Decision.reject wC5Accepted
    (by decide) (Or.inl (by decide))

/- ------------------------------------------------------------------ -/
/- C4: status transitions                                             -/
/- ------------------------------------------------------------------ -/

/-- Immediate successor in the lifecycle order scheduled→live→ended→closed. -/
def nextStatus : AuctionStatus → Option AuctionStatus
  | AuctionStatus.scheduled => some AuctionStatus.live
  | AuctionStatus.live => some AuctionStatus.ended
  | AuctionStatus.ended => some AuctionStatus.closed
  | AuctionStatus.closed => none

/-- Position in the lifecycle order. -/
def statusRank : AuctionStatus → ℕ
  | AuctionStatus.scheduled => 0
  | AuctionStatus.live => 1
  | AuctionStatus.ended => 2
  | AuctionStatus.closed => 3

theorem statusOf_updateAuctionPrice (s : ServerState) (aid2 : String) (amount : ℤ)
    (aid : String) :
    statusOf (updateAuctionPrice s aid2 amount) aid = statusOf s aid := by
  unfold updateAuctionPrice
  rw [statusOf_map _ _ _ (by intro a; split <;> rfl)]
  unfold statusOf
  have : (fun a => ((fun a : Auction =>
        if a.id == aid2 then { a with currentPrice := amount } else a) a).status)
      = (fun a : Auction => a.status) := by
    funext a
    by_cases h : (a.id == aid2) = true <;> simp [h]
  rw [this]

theorem statusOf_closeAuction_cases (s : ServerState) (aid2 aid : String) :
    statusOf (closeAuction s aid2) aid = statusOf s aid ∨
    ((statusOf s aid).isSome ∧ statusOf (closeAuction s aid2) aid = some AuctionStatus.closed) := by
  unfold closeAuction
  rw [statusOf_map _ _ _ (by intro a; split <;> rfl)]
  cases hfa : findAuction s aid with
  | none =>
    left
    unfold statusOf
    rw [hfa]
    rfl
  | some a =>
    by_cases hid : (a.id == aid2) = true
    · right
      constructor
      · unfold statusOf
        rw [hfa]
        rfl
      · simp only [Option.map_some']
        rw [if_pos hid]
    · left
      unfold statusOf
      rw [hfa]
      simp only [Option.map_some']
      rw [if_neg hid]

theorem statusOf_placeBid (behavior : StoreBehavior) (s : ServerState)
    (aid2 bidder bidId : String) (amount now : ℤ) (aid : String) :
    statusOf (placeBid behavior s aid2 bidder bidId amount now).state aid = statusOf s aid := by
  unfold placeBid
  cases hfa : findAuction s aid2 with
  | none => rfl
  | some a =>
    dsimp only
    split_ifs <;>
      first
        | rfl
        | exact statusOf_updateAuctionPrice s aid2 amount aid

theorem statusOf_createAuction (s : ServerState) (sellerId newId : String)
    (i : CreateAuctionInput) (now : ℤ) (aid : String) (st : AuctionStatus)
    (h : statusOf s aid = some st) :
    statusOf (createAuction s sellerId newId i now).1 aid = some st := by
  by_cases hv : validCreateInput i = true
  · obtain ⟨a2, hfa, hst⟩ := Option.map_eq_some'.mp h
    unfold createAuction
    rw [if_pos hv]
    unfold statusOf
    dsimp only
    rw [findAuction_append s aid _ a2 hfa]
    simp [hst]
  · unfold createAuction
    rw [if_neg hv]
    exact h

theorem statusOf_createCounterOffer (s : ServerState) (aid2 actor cid : String)
    (amount now : ℤ) (aid : String) :
    statusOf (createCounterOffer s aid2 actor cid amount now).state aid = statusOf s aid := by
  unfold createCounterOffer
  split_ifs with h1
  · rfl
  · cases hfa : findAuction s aid2 with
    | none => rfl
    | some a =>
      dsimp only
      split_ifs with h2
      · rfl
      · cases hlb : latestBid (bidsOf s aid2) <;> rfl

theorem statusOf_decideAuction_cases (s : ServerState) (aid2 actor : String) (d : Decision)
    (aid : String) :
    statusOf (decideAuction s aid2 actor d).state aid = statusOf s aid ∨
    ((statusOf s aid).isSome ∧
      statusOf (decideAuction s aid2 actor d).state aid = some AuctionStatus.closed) := by
  unfold decideAuction
  cases hfa : findAuction s aid2 with
  | none => left; rfl
  | some a =>
    dsimp only
    split_ifs with h1 h2
    · left; rfl
    · left; rfl
    · cases hlb : topBidByAmount (bidsOf s aid2) with
      | none => left; rfl
      | some tb => exact statusOf_closeAuction_cases s aid2 aid
  
theorem statusOf_respondCounterOffer_cases (s : ServerState) (cid actor : String)
    (d : Decision) (aid : String) :
    statusOf (respondCounterOffer s cid actor d).state aid = statusOf s aid ∨
    ((statusOf s aid).isSome ∧
      statusOf (respondCounterOffer s cid actor d).state aid = some AuctionStatus.closed) := by
  unfold respondCounterOffer
  cases hc : findCounter s cid with
  | none => left; rfl
  | some co =>
    dsimp only
    split_ifs with h1
    · left; rfl
    · exact statusOf_closeAuction_cases (setCounterStatus s cid _) co.auctionId aid

theorem promoteDue_id (now : ℤ) (a : Auction) : (promoteDue now a).id = a.id := by
  unfold promoteDue
  split <;> rfl

theorem endExpired_id (now : ℤ) (a : Auction) : (endExpired now a).id = a.id := by
  unfold endExpired
  split <;> rfl

theorem statusOf_sweep (s : ServerState) (now : ℤ) (aid : String) :
    statusOf (sweep s now).state aid
      = (findAuction s aid).map (fun a => (endExpired now (promoteDue now a)).status) := by
  unfold sweep
  dsimp only
  rw [List.map_map]
  exact statusOf_map s aid _ (fun a => by
    rw [Function.comp_apply, endExpired_id, promoteDue_id])

def wC4State : ServerState := ⟨[wAuction], [], [wCounter], []⟩

/-- C4 counterexample: responding to a counter-offer on a still-live auction
    moves its status from live directly to closed, skipping ended — the
    claimed exact-successor rule fails for an operation other than
    creation. -/
theorem status_transition_skip_counterexample :
    ¬ (∀ (s : ServerState) (op : Op) (aid : String) (st st2 : AuctionStatus),
        statusOf s aid = some st → statusOf (applyOp s op) aid = some st2 →
        st2 = st ∨ nextStatus st = some st2) := by
  intro hclaim
  have h := hclaim wC4State (Op.respond cid1 uBuyer Decision.reject) aid1
    AuctionStatus.live AuctionStatus.closed (by decide) (by decide)
  rcases h with h | h
  · exact absurd h (by decide)
  · exact absurd h (by decide)

/-- C4 amended: over any single operation of the system, an auction's status
    never moves backward in the order scheduled→live→ended→closed (the rank
    is monotone), and every change is either the immediate successor, a jump
    to closed (respondCounterOffer closes the parent auction with no status
    precondition, and decide closes an ended auction), or the
    scheduled→ended advancement a single sweep tick performs on an auction
    that is both due and already expired (writing live and then ended within
    the tick); creation aside, those are the only deviations from the
    exact-successor rule. -/
theorem applyOp_status_monotone (s : ServerState) (op : Op) (aid : String)
    (st st2 : AuctionStatus)
    (h1 : statusOf s aid = some st) (h2 : statusOf (applyOp s op) aid = some st2) :
    statusRank st ≤ statusRank st2 ∧
    (st2 = st ∨ nextStatus st = some st2 ∨ st2 = AuctionStatus.closed ∨
      (st = AuctionStatus.scheduled ∧ st2 = AuctionStatus.ended)) := by
  have hd : st2 = st ∨ nextStatus st = some st2 ∨ st2 = AuctionStatus.closed ∨
      (st = AuctionStatus.scheduled ∧ st2 = AuctionStatus.ended) := by
    cases op with
    | create sellerId newId i now =>
      left
      have h3 := statusOf_createAuction s sellerId newId i now aid st h1
      simp only [applyOp] at h2
      rw [h3] at h2
      exact (Option.some_inj.mp h2).symm
    | bid behavior aid2 bidder bidId amount now =>
      left
      simp only [applyOp] at h2
      rw [statusOf_placeBid, h1] at h2
      exact (Option.some_inj.mp h2).symm
    | sweepTick now =>
      simp only [applyOp] at h2
      rw [statusOf_sweep] at h2
      unfold statusOf at h1
      obtain ⟨a, hfa, hst⟩ := Option.map_eq_some'.mp h1
      rw [hfa] at h2
      simp only [Option.map_some'] at h2
      have hval : (endExpired now (promoteDue now a)).status = st2 := Option.some_inj.mp h2
      subst hst
      rcases Decidable.em (a.status = AuctionStatus.scheduled ∧ a.goLiveAt ≤ now) with hA | hA
      · have hp : promoteDue now a = { a with status := AuctionStatus.live } := if_pos hA
        rw [hp] at hval
        rcases Decidable.em (a.endsAt < now) with hB | hB
        · have he : endExpired now { a with status := AuctionStatus.live }
              = { a with status := AuctionStatus.ended } := by
            unfold endExpired
            rw [if_pos ⟨rfl, hB⟩]
          rw [he] at hval
          right; right; right
          exact ⟨hA.1, hval.symm⟩
        · have he : endExpired now { a with status := AuctionStatus.live }
              = { a with status := AuctionStatus.live } := by
            unfold endExpired
            rw [if_neg (fun hcc => hB hcc.2)]
          rw [he] at hval
          right; left
          rw [hA.1, ← hval]
          rfl
      · have hp : promoteDue now a = a := if_neg hA
        rw [hp] at hval
        rcases Decidable.em (a.status = AuctionStatus.live ∧ a.endsAt < now) with hB | hB
        · have he : endExpired now a = { a with status := AuctionStatus.ended } := if_pos hB
          rw [he] at hval
          right; left
          rw [hB.1, ← hval]
          rfl
        · have he : endExpired now a = a := if_neg hB
          rw [he] at hval
          left
          exact hval.symm
    | decide aid2 actor d =>
      simp only [applyOp] at h2
      rcases statusOf_decideAuction_cases s aid2 actor d aid with hcase | ⟨hs, hcase⟩
      · left
        rw [hcase, h1] at h2
        exact (Option.some_inj.mp h2).symm
      · right; right; left
        rw [hcase] at h2
        exact (Option.some_inj.mp h2).symm
    | counter aid2 actor cid amount now =>
      left
      simp only [applyOp] at h2
      rw [statusOf_createCounterOffer, h1] at h2
      exact (Option.some_inj.mp h2).symm
    | respond cid actor d =>
      simp only [applyOp] at h2
      rcases statusOf_respondCounterOffer_cases s cid actor d aid with hcase | ⟨hs, hcase⟩
      · left
        rw [hcase, h1] at h2
        exact (Option.some_inj.mp h2).symm
      · right; right; left
        rw [hcase] at h2
        exact (Option.some_inj.mp h2).symm
  refine ⟨?_, hd⟩
  rcases hd with h | h | h | ⟨ha, hb⟩
  · subst h
    exact le_refl _
  · cases st <;> simp [nextStatus] at h <;> subst h <;> decide
  · subst h
    cases st <;> decide
  · subst ha
    subst hb
    decide

/-- C4 amended witness: the live→closed jump performed by respondCounterOffer
    satisfies the monotonicity-with-closing-jumps characterization. -/
theorem applyOp_status_monotone_witness :
    statusRank AuctionStatus.live ≤ statusRank AuctionStatus.closed ∧
    (AuctionStatus.closed = AuctionStatus.live ∨
      nextStatus AuctionStatus.live = some AuctionStatus.closed ∨
      AuctionStatus.closed = AuctionStatus.closed ∨
      (AuctionStatus.live = AuctionStatus.scheduled ∧
        AuctionStatus.closed = AuctionStatus.ended)) :=
  applyOp_status_monotone wC4State (Op.respond cid1 uBuyer Decision.reject) aid1
    AuctionStatus.live AuctionStatus.closed (by decide) (by decide)

/- ------------------------------------------------------------------ -/
/- C7: sweep idempotence                                              -/
/- ------------------------------------------------------------------ -/

theorem sweep_g_fixed (now : ℤ) (a : Auction) :
    ¬((endExpired now (promoteDue now a)).status = AuctionStatus.scheduled ∧
        (endExpired now (promoteDue now a)).goLiveAt ≤ now) ∧
    ¬((endExpired now (promoteDue now a)).status = AuctionStatus.live ∧
        (endExpired now (promoteDue now a)).endsAt < now) := by
  by_cases h1 : a.status = AuctionStatus.scheduled ∧ a.goLiveAt ≤ now
  · have hp : promoteDue now a = { a with status := AuctionStatus.live } := if_pos h1
    rw [hp]
    by_cases h2 : a.endsAt < now
    · have he : endExpired now { a with status := AuctionStatus.live }
          = { a with status := AuctionStatus.ended } := by
        unfold endExpired
        rw [if_pos ⟨rfl, h2⟩]
      rw [he]
      exact ⟨fun hc => AuctionStatus.noConfusion hc.1, fun hc => AuctionStatus.noConfusion hc.1⟩
    · have he : endExpired now { a with status := AuctionStatus.live }
          = { a with status := AuctionStatus.live } := by
        unfold endExpired
        rw [if_neg (fun hc => h2 hc.2)]
      rw [he]
      exact ⟨fun hc => AuctionStatus.noConfusion hc.1, fun hc => h2 hc.2⟩
  · have hp : promoteDue now a = a := if_neg h1
    rw [hp]
    by_cases h2 : a.status = AuctionStatus.live ∧ a.endsAt < now
    · have he : endExpired now a = { a with status := AuctionStatus.ended } := if_pos h2
      rw [he]
      exact ⟨fun hc => AuctionStatus.noConfusion hc.1, fun hc => AuctionStatus.noConfusion hc.1⟩
    · have he : endExpired now a = a := if_neg h2
      rw [he]
      exact ⟨h1, h2⟩

theorem sweep_no_eligible (X : ServerState) (now : ℤ)
    (h : ∀ a ∈ X.auctions,
        ¬(a.status = AuctionStatus.scheduled ∧ a.goLiveAt ≤ now) ∧
        ¬(a.status = AuctionStatus.live ∧ a.endsAt < now)) :
    sweep X now = ⟨X, [], []⟩ := by
  have hf1 : X.auctions.filter
      (fun a => decide (a.status = AuctionStatus.scheduled ∧ a.goLiveAt ≤ now)) = [] :=
    List.filter_eq_nil_iff.mpr (fun a ha => by simpa using (h a ha).1)
  have hm1 : X.auctions.map (promoteDue now) = X.auctions := by
    conv_rhs => rw [← List.map_id X.auctions]
    apply List.map_congr_left
    intro a ha
    exact if_neg (h a ha).1
  have hf2 : X.auctions.filter
      (fun a => decide (a.status = AuctionStatus.live ∧ a.endsAt < now)) = [] :=
    List.filter_eq_nil_iff.mpr (fun a ha => by simpa using (h a ha).2)
  have hm2 : X.auctions.map (endExpired now) = X.auctions := by
    conv_rhs => rw [← List.map_id X.auctions]
    apply List.map_congr_left
    intro a ha
    exact if_neg (h a ha).2
  unfold sweep
  dsimp only
  rw [hm1, hf1, hf2, hm2]
  simp

/-- C7: the lifecycle sweep is idempotent — after a sweep at `now`, no
    auction is still sweep-eligible at `now`, and running the sweep again at
    that moment performs no store writes, emits no broadcast, and sends no
    notification (the output is the unchanged state with empty broadcast and
    notification lists). -/
theorem sweep_idempotent (s : ServerState) (now : ℤ) :
    (∀ a ∈ (sweep s now).state.auctions,
        ¬(a.status = AuctionStatus.scheduled ∧ a.goLiveAt ≤ now) ∧
        ¬(a.status = AuctionStatus.live ∧ a.endsAt < now)) ∧
    sweep (sweep s now).state now = ⟨(sweep s now).state, [], []⟩ := by
  have hstate : (sweep s now).state
      = { s with auctions := s.auctions.map (fun a => endExpired now (promoteDue now a)) } := by
    unfold sweep
    dsimp only
    rw [List.map_map]
    rfl
  have hall : ∀ a ∈ (sweep s now).state.auctions,
      ¬(a.status = AuctionStatus.scheduled ∧ a.goLiveAt ≤ now) ∧
      ¬(a.status = AuctionStatus.live ∧ a.endsAt < now) := by
    intro a ha
    rw [hstate] at ha
    obtain ⟨x, hx, rfl⟩ := List.mem_map.mp ha
    exact sweep_g_fixed now x
  exact ⟨hall, sweep_no_eligible _ now hall⟩

/- ------------------------------------------------------------------ -/
/- C6: the code's latest-bid selection equals the spec's top bid      -/
/- ------------------------------------------------------------------ -/

/-- Relation between consecutive bids of one auction as the bid engine
    accepts them: strictly increasing amount, non-decreasing createdAt. -/
def BidStep (x y : Bid) : Prop := x.amount < y.amount ∧ x.createdAt ≤ y.createdAt

theorem foldl_laterByCreated_chain (xs : List Bid) : ∀ acc : Bid,
    List.Chain BidStep acc xs →
    xs.foldl laterByCreated (some acc) = some (xs.getLastD acc) := by
  induction xs with
  | nil => intro acc _; rfl
  | cons b ys ih =>
    intro acc h
    cases h with
    | cons hab hchain =>
      have hstep : laterByCreated (some acc) b = some b := if_pos hab.2
      simp only [List.foldl_cons, hstep, List.getLastD_cons]
      exact ih b hchain

theorem foldl_specBetter_chain (xs : List Bid) : ∀ acc : Bid,
    List.Chain BidStep acc xs →
    xs.foldl specBetter (some acc) = some (xs.getLastD acc) := by
  induction xs with
  | nil => intro acc _; rfl
  | cons b ys ih =>
    intro acc h
    cases h with
    | cons hab hchain =>
      have hstep : specBetter (some acc) b = some b := if_pos (Or.inl hab.1)
      simp only [List.foldl_cons, hstep, List.getLastD_cons]
      exact ih b hchain

/-- On a bid list whose amounts strictly increase and whose createdAt values
    do not decrease (the shape the bid engine produces), the store's
    createdAt-descending lookup and the spec's amount-greatest lookup agree:
    both return the last accepted bid. -/
theorem latestBid_eq_topBidSpec (l : List Bid) (h : List.Chain' BidStep l) :
    latestBid l = topBidSpec l := by
  cases l with
  | nil => rfl
  | cons x xs =>
    have hchain : List.Chain BidStep x xs := h
    unfold latestBid topBidSpec
    simp only [List.foldl_cons]
    have h1 : laterByCreated none x = some x := rfl
    have h2 : specBetter none x = some x := rfl
    rw [h1, h2, foldl_laterByCreated_chain xs x hchain, foldl_specBetter_chain xs x hchain]

/-- Invariants of every store state reachable by a run of the server's
    operations whose wall-clock reads are bounded by t: bid increments of
    stored auctions are positive, every bid is at most its auction's
    currentPrice, every bid references an existing auction, bid timestamps
    are bounded by t, and each auction's bid list ascends in amount and
    createdAt. -/
def GoodState (s : ServerState) (t : ℤ) : Prop :=
  (∀ aid a, findAuction s aid = some a →
      0 < a.bidIncrement ∧ ∀ b ∈ bidsOf s aid, b.amount ≤ a.currentPrice) ∧
  (∀ b ∈ s.bids, (findAuction s b.auctionId).isSome) ∧
  (∀ b ∈ s.bids, b.createdAt ≤ t) ∧
  (∀ aid, List.Chain' BidStep (bidsOf s aid))

theorem goodState_mono (s : ServerState) (t t2 : ℤ) (h : GoodState s t) (hle : t ≤ t2) :
    GoodState s t2 :=
  ⟨h.1, h.2.1, fun b hb => le_trans (h.2.2.1 b hb) hle, h.2.2.2⟩

/-- Auction-row rewrites that keep id, currentPrice and bidIncrement (status
    changes by the scheduler and negotiation engine) preserve the reachable
    state invariants. -/
theorem goodState_mapAuctions (s : ServerState) (t : ℤ) (f : Auction → Auction)
    (hid : ∀ a, (f a).id = a.id)
    (hcp : ∀ a, (f a).currentPrice = a.currentPrice)
    (hinc : ∀ a, (f a).bidIncrement = a.bidIncrement)
    (h : GoodState s t) : GoodState { s with auctions := s.auctions.map f } t := by
  obtain ⟨h1, h2, h3, h4⟩ := h
  refine ⟨?_, ?_, h3, h4⟩
  · intro aid a ha
    rw [findAuction_map s aid f hid] at ha
    obtain ⟨a0, ha0, rfl⟩ := Option.map_eq_some'.mp ha
    refine ⟨?_, ?_⟩
    · rw [hinc a0]
      exact (h1 aid a0 ha0).1
    · intro b hb
      rw [hcp a0]
      exact (h1 aid a0 ha0).2 b hb
  · intro b hb
    rw [findAuction_map s _ f hid]
    have hsome := h2 b hb
    cases hfa : findAuction s b.auctionId with
    | none => rw [hfa] at hsome; exact absurd hsome (by simp)
    | some a0 => simp

theorem promoteDue_price (now : ℤ) (a : Auction) :
    (promoteDue now a).currentPrice = a.currentPrice := by
  unfold promoteDue
  split <;> rfl

theorem promoteDue_incr (now : ℤ) (a : Auction) :
    (promoteDue now a).bidIncrement = a.bidIncrement := by
  unfold promoteDue
  split <;> rfl

theorem endExpired_price (now : ℤ) (a : Auction) :
    (endExpired now a).currentPrice = a.currentPrice := by
  unfold endExpired
  split <;> rfl

theorem endExpired_incr (now : ℤ) (a : Auction) :
    (endExpired now a).bidIncrement = a.bidIncrement := by
  unfold endExpired
  split <;> rfl

theorem decideAuction_state_cases (s : ServerState) (aid actor : String) (d : Decision) :
    (decideAuction s aid actor d).state = s ∨
    (decideAuction s aid actor d).state = closeAuction s aid := by
  unfold decideAuction
  cases hfa : findAuction s aid with
  | none => left; rfl
  | some a =>
    dsimp only
    split_ifs with h1 h2
    · left; rfl
    · left; rfl
    · cases hlb : topBidByAmount (bidsOf s aid) with
      | none => left; rfl
      | some tb => right; rfl

theorem respondCounterOffer_state_cases (s : ServerState) (cid actor : String) (d : Decision) :
    (respondCounterOffer s cid actor d).state = s ∨
    ∃ st aid2, (respondCounterOffer s cid actor d).state
      = closeAuction (setCounterStatus s cid st) aid2 := by
  unfold respondCounterOffer
  cases hc : findCounter s cid with
  | none => left; rfl
  | some co =>
    dsimp only
    split_ifs with h1
    · left; rfl
    · right
      cases d
      · exact ⟨CounterStatus.accepted, co.auctionId, rfl⟩
      · exact ⟨CounterStatus.rejected, co.auctionId, rfl⟩

theorem createCounterOffer_state_cases (s : ServerState) (aid actor cid : String)
    (amount now : ℤ) :
    (createCounterOffer s aid actor cid amount now).state = s ∨
    ∃ row, (createCounterOffer s aid actor cid amount now).state = insertCounter s row := by
  unfold createCounterOffer
  split_ifs with h0
  · left; rfl
  · cases hfa : findAuction s aid with
    | none => left; rfl
    | some a =>
      dsimp only
      split_ifs with h1
      · left; rfl
      · cases hlb : latestBid (bidsOf s aid) with
        | none => left; rfl
        | some tb =>
          right
          exact ⟨_, rfl⟩

theorem placeBid_state_cases (behavior : StoreBehavior) (s : ServerState)
    (aid bidder bidId : String) (amount now : ℤ) :
    (placeBid behavior s aid bidder bidId amount now).state = s ∨
    (∃ a, findAuction s aid = some a ∧
      a.currentPrice + a.bidIncrement ≤ amount ∧
      ((placeBid behavior s aid bidder bidId amount now).state = updateAuctionPrice s aid amount ∨
       (placeBid behavior s aid bidder bidId amount now).state
         = insertBid (updateAuctionPrice s aid amount) ⟨bidId, aid, bidder, amount, now⟩)) := by
  unfold placeBid
  cases hfa : findAuction s aid with
  | none => left; rfl
  | some a =>
    dsimp only
    split_ifs with h1 h2 h3 h4 h5
    · left; rfl
    · left; rfl
    · left; rfl
    · left; rfl
    · right
      exact ⟨a, rfl, not_lt.mp h3, Or.inl rfl⟩
    · right
      exact ⟨a, rfl, not_lt.mp h3, Or.inr rfl⟩

theorem mem_of_mem_getLast? {α : Type} {l : List α} {x : α} (hx : x ∈ l.getLast?) : x ∈ l := by
  obtain ⟨h, rfl⟩ := List.mem_getLast?_eq_getLast hx
  exact List.getLast_mem h

theorem bidsOf_insertBid (s : ServerState) (b : Bid) (aid : String) :
    bidsOf (insertBid s b) aid
      = bidsOf s aid ++ (if (b.auctionId == aid) = true then [b] else []) := by
  unfold bidsOf insertBid
  rw [List.filter_append]
  by_cases hp : (b.auctionId == aid) = true <;> simp [hp]

theorem goodState_updatePrice (s : ServerState) (t : ℤ) (aid : String) (amount : ℤ)
    (a : Auction) (hfa : findAuction s aid = some a)
    (hmin : a.currentPrice + a.bidIncrement ≤ amount)
    (h : GoodState s t) : GoodState (updateAuctionPrice s aid amount) t := by
  obtain ⟨h1, h2, h3, h4⟩ := h
  have hainc := (h1 aid a hfa).1
  have hacp : a.currentPrice < amount := by linarith
  refine ⟨?_, ?_, h3, h4⟩
  · intro aid2 a2 ha2
    unfold updateAuctionPrice at ha2
    rw [findAuction_map s aid2 _ (by intro x; split <;> rfl)] at ha2
    obtain ⟨a0, ha0, rfl⟩ := Option.map_eq_some'.mp ha2
    by_cases hid : (a0.id == aid) = true
    · have ha0u : s.auctions.find? (fun x => x.id == aid2) = some a0 := ha0
      have e1 : (a0.id == aid2) = true :=
        @List.find?_some _ (fun x => x.id == aid2) a0 s.auctions ha0u
      have hkey : aid2 = aid := by
        have e1b : a0.id = aid2 := by simpa using e1
        have e2b : a0.id = aid := by simpa using hid
        rw [← e1b, e2b]
      subst hkey
      have ha0a : a0 = a := by
        rw [ha0] at hfa
        exact Option.some_inj.mp hfa
      subst ha0a
      constructor
      · simp only [if_pos hid]
        exact hainc
      · intro b hb
        simp only [if_pos hid]
        exact le_trans ((h1 aid2 a0 ha0).2 b hb) (le_of_lt hacp)
    · rw [if_neg hid]
      exact ⟨(h1 aid2 a0 ha0).1, fun b hb => (h1 aid2 a0 ha0).2 b hb⟩
  · intro b hb
    unfold updateAuctionPrice
    rw [findAuction_map s _ _ (by intro x; split <;> rfl)]
    have hsome := h2 b hb
    cases hx : findAuction s b.auctionId with
    | none => rw [hx] at hsome; exact absurd hsome (by simp)
    | some a0 => simp

theorem goodState_insertBid (s : ServerState) (t now : ℤ) (aid bidder bidId : String)
    (amount : ℤ) (a : Auction) (hfa : findAuction s aid = some a)
    (hmin : a.currentPrice + a.bidIncrement ≤ amount)
    (ht : t ≤ now) (h : GoodState s t) :
    GoodState (insertBid (updateAuctionPrice s aid amount) ⟨bidId, aid, bidder, amount, now⟩)
      now := by
  have hainc := (h.1 aid a hfa).1
  have hacp : a.currentPrice < amount := by linarith
  have hX : GoodState (updateAuctionPrice s aid amount) t :=
    goodState_updatePrice s t aid amount a hfa hmin h
  obtain ⟨hX1, hX2, hX3, hX4⟩ := hX
  set X := updateAuctionPrice s aid amount with hXdef
  set nb : Bid := ⟨bidId, aid, bidder, amount, now⟩ with hnb
  have hfau : s.auctions.find? (fun x => x.id == aid) = some a := hfa
  have haid : (a.id == aid) = true :=
    @List.find?_some _ (fun x => x.id == aid) a s.auctions hfau
  have hfX : findAuction X aid = some { a with currentPrice := amount } := by
    rw [hXdef]
    unfold updateAuctionPrice
    rw [findAuction_map s aid _ (by intro x; split <;> rfl), hfa]
    simp only [Option.map_some']
    rw [if_pos haid]
  have hboundX : ∀ b ∈ bidsOf X aid, b.amount ≤ a.currentPrice := by
    intro b hb
    exact (h.1 aid a hfa).2 b hb
  have htimeX : ∀ b ∈ X.bids, b.createdAt ≤ t := hX3
  refine ⟨?_, ?_, ?_, ?_⟩
  · intro aid2 a2 ha2
    have ha2' : findAuction X aid2 = some a2 := ha2
    refine ⟨(hX1 aid2 a2 ha2').1, ?_⟩
    intro b hb
    rw [bidsOf_insertBid X nb aid2] at hb
    rcases List.mem_append.mp hb with hbl | hbr
    · exact (hX1 aid2 a2 ha2').2 b hbl
    · by_cases hcond : (nb.auctionId == aid2) = true
      · rw [if_pos hcond] at hbr
        have hbeq : b = nb := by simpa using hbr
        subst hbeq
        have hkey : aid = aid2 := by
          have e1 : nb.auctionId = aid2 := by simpa using hcond
          exact e1
        subst hkey
        rw [hfX] at ha2'
        cases Option.some_inj.mp ha2'
        exact le_refl amount
      · rw [if_neg hcond] at hbr
        exact absurd hbr (List.not_mem_nil b)
  · intro b hb
    rcases List.mem_append.mp hb with hbl | hbr
    · exact hX2 b hbl
    · have hbeq : b = nb := by simpa using hbr
      subst hbeq
      show (findAuction X nb.auctionId).isSome
      rw [show nb.auctionId = aid from rfl, hfX]
      rfl
  · intro b hb
    rcases List.mem_append.mp hb with hbl | hbr
    · exact le_trans (htimeX b hbl) ht
    · have hbeq : b = nb := by simpa using hbr
      subst hbeq
      exact le_refl now
  · intro aid2
    rw [bidsOf_insertBid X nb aid2]
    by_cases hcond : (nb.auctionId == aid2) = true
    · rw [if_pos hcond]
      have hkey : aid = aid2 := by
        have e1 : nb.auctionId = aid2 := by simpa using hcond
        exact e1
      subst hkey
      apply List.Chain'.append (hX4 aid) (List.chain'_singleton nb)
      intro x hx y hy
      have hyeq : nb = y := by simpa using hy
      subst hyeq
      have hxmem : x ∈ bidsOf X aid := mem_of_mem_getLast? hx
      constructor
      · exact lt_of_le_of_lt (hboundX x hxmem) hacp
      · have hxbids : x ∈ X.bids := List.mem_of_mem_filter hxmem
        exact le_trans (htimeX x hxbids) ht
    · rw [if_neg hcond]
      simpa using hX4 aid2

theorem findAuction_append_none (s : ServerState) (a2 : Auction) (aid : String)
    (h : findAuction s aid = none) :
    findAuction (appendAuction s a2) aid
      = (if (a2.id == aid) = true then some a2 else none) := by
  unfold findAuction at h ⊢
  unfold appendAuction
  rw [List.find?_append, h]
  by_cases hp : (a2.id == aid) = true <;> simp [List.find?_cons, hp]

theorem goodState_append (s : ServerState) (t : ℤ) (a2 : Auction)
    (hinc : 0 < a2.bidIncrement) (h : GoodState s t) :
    GoodState (appendAuction s a2) t := by
  obtain ⟨h1, h2, h3, h4⟩ := h
  refine ⟨?_, ?_, h3, h4⟩
  · intro aid a ha
    cases hfa : findAuction s aid with
    | some a0 =>
      rw [findAuction_append s aid a2 a0 hfa] at ha
      have hq : a0 = a := Option.some_inj.mp ha
      subst hq
      exact ⟨(h1 aid a0 hfa).1, fun b hb => (h1 aid a0 hfa).2 b hb⟩
    | none =>
      rw [findAuction_append_none s a2 aid hfa] at ha
      by_cases hp : (a2.id == aid) = true
      · rw [if_pos hp] at ha
        cases Option.some_inj.mp ha
        refine ⟨hinc, ?_⟩
        intro b hb
        have hbu : b ∈ s.bids.filter (fun x => x.auctionId == aid) := hb
        have hbb : b ∈ s.bids := List.mem_of_mem_filter hbu
        have hsome := h2 b hbb
        have hbid : (b.auctionId == aid) = true :=
          @List.of_mem_filter _ (fun x => x.auctionId == aid) b s.bids hbu
        have hbeq : b.auctionId = aid := by simpa using hbid
        rw [hbeq, hfa] at hsome
        exact absurd hsome (by simp)
      · rw [if_neg hp] at ha
        exact Option.noConfusion ha
  · intro b hb
    have hsome := h2 b hb
    cases hfa : findAuction s b.auctionId with
    | none => rw [hfa] at hsome; exact absurd hsome (by simp)
    | some a0 =>
      rw [findAuction_append s _ a2 a0 hfa]
      rfl

theorem validCreateInput_incr (i : CreateAuctionInput) (h : validCreateInput i = true) :
    1 ≤ i.bidIncrement := by
  unfold validCreateInput at h
  simp only [Bool.and_eq_true, decide_eq_true_eq] at h
  exact h.1.1.2

theorem goodState_createAuction (s : ServerState) (t now : ℤ) (sellerId newId : String)
    (i : CreateAuctionInput) (ht : t ≤ now) (h : GoodState s t) :
    GoodState (createAuction s sellerId newId i now).1 now := by
  by_cases hv : validCreateInput i = true
  · unfold createAuction
    rw [if_pos hv]
    dsimp only
    apply goodState_append
    · show (0 : ℤ) < i.bidIncrement
      have := validCreateInput_incr i hv
      omega
    · exact goodState_mono s t now h ht
  · unfold createAuction
    rw [if_neg hv]
    exact goodState_mono s t now h ht

/-- Every reachable store state satisfies the bid-engine invariants. -/
theorem reachable_goodState (s : ServerState) (t : ℤ) (h : Reachable s t) : GoodState s t := by
  induction h with
  | init t0 =>
    refine ⟨?_, ?_, ?_, ?_⟩
    · intro aid a ha
      exact absurd ha (by simp [findAuction, emptyState])
    · intro b hb
      exact absurd hb (List.not_mem_nil b)
    · intro b hb
      exact absurd hb (List.not_mem_nil b)
    · intro aid
      simp [bidsOf, emptyState]
  | step s t op hre ht ih =>
    cases op with
    | create sellerId newId i now =>
      exact goodState_createAuction s t now sellerId newId i (ht now rfl) ih
    | bid behavior aid bidder bidId amount now =>
      have htn : t ≤ now := ht now rfl
      rcases placeBid_state_cases behavior s aid bidder bidId amount now with hs | ⟨a, hfa, hmin, hst⟩
      · show GoodState (placeBid behavior s aid bidder bidId amount now).state now
        rw [hs]
        exact goodState_mono s t now ih htn
      · rcases hst with h1 | h1
        · show GoodState (placeBid behavior s aid bidder bidId amount now).state now
          rw [h1]
          exact goodState_mono _ t now (goodState_updatePrice s t aid amount a hfa hmin ih) htn
        · show GoodState (placeBid behavior s aid bidder bidId amount now).state now
          rw [h1]
          exact goodState_insertBid s t now aid bidder bidId amount a hfa hmin htn ih
    | sweepTick now =>
      have htn : t ≤ now := ht now rfl
      show GoodState (sweep s now).state now
      have hg1 : GoodState { s with auctions := s.auctions.map (promoteDue now) } now :=
        goodState_mapAuctions s now (promoteDue now) (promoteDue_id now) (promoteDue_price now)
          (promoteDue_incr now) (goodState_mono s t now ih htn)
      exact goodState_mapAuctions _ now (endExpired now) (endExpired_id now) (endExpired_price now)
        (endExpired_incr now) hg1
    | decide aid actor d =>
      rcases decideAuction_state_cases s aid actor d with hs | hs
      · show GoodState (decideAuction s aid actor d).state t
        rw [hs]
        exact ih
      · show GoodState (decideAuction s aid actor d).state t
        rw [hs]
        exact goodState_mapAuctions s t _ (by intro x; split <;> rfl) (by intro x; split <;> rfl)
          (by intro x; split <;> rfl) ih
    | counter aid actor cid amount now =>
      have htn : t ≤ now := ht now rfl
      rcases createCounterOffer_state_cases s aid actor cid amount now with hs | ⟨row, hs⟩
      · show GoodState (createCounterOffer s aid actor cid amount now).state now
        rw [hs]
        exact goodState_mono s t now ih htn
      · show GoodState (createCounterOffer s aid actor cid amount now).state now
        rw [hs]
        exact goodState_mono s t now ih htn
    | respond cid actor d =>
      rcases respondCounterOffer_state_cases s cid actor d with hs | ⟨st, aid2, hs⟩
      · show GoodState (respondCounterOffer s cid actor d).state t
        rw [hs]
        exact ih
      · show GoodState (respondCounterOffer s cid actor d).state t
        rw [hs]
        have hmid : GoodState (setCounterStatus s cid st) t := ih
        exact goodState_mapAuctions (setCounterStatus s cid st) t _
          (by intro x; split <;> rfl) (by intro x; split <;> rfl) (by intro x; split <;> rfl) hmid

/-- Strict per-auction bid ordering: strictly increasing amount and strictly
    increasing createdAt.  Under it the latest-createdAt row is unique, so
    the store's `order by createdAt desc limit 1` is unambiguous and the
    modelled tie-break is immaterial. -/
def StrictBidStep (x y : Bid) : Prop := x.amount < y.amount ∧ x.createdAt < y.createdAt

instance : DecidableRel StrictBidStep :=
  fun x y => inferInstanceAs (Decidable (x.amount < y.amount ∧ x.createdAt < y.createdAt))

def wRaceBid1 : Bid := ⟨bidId1, aid1, uBuyer, 11000, 10⟩

def wRaceBid2 : Bid := ⟨bidId2, aid1, uBuyer2, 10500, 20⟩

/-- An auction whose later-created bid has the lower amount: the bid-list
    shape the §9-flagged lost-update race produces (two concurrent bids both
    validated against the same currentPrice, the larger write landing
    first), and one the bids schema itself permits. -/
def wC6RaceState : ServerState :=
  ⟨[{ wAuction with currentPrice := 11000, endsAt := 100 }], [wRaceBid1, wRaceBid2], [], []⟩

def wRaceCounter : CounterOffer := ⟨cid1, aid1, uSeller, uBuyer2, 12000, CounterStatus.pending, 30⟩

/-- C6 counterexample: on an auction whose later-created bid has the lower
    amount, the spec's top bid is the earlier 110.00 bid by uBuyer, yet
    createCounterOffer inserts a counter targeting uBuyer2 and the sweep
    notifies uBuyer2 with auction_ended — the bidder of the latest-created
    bid returned by the createdAt-descending lookup, not the top bidder. -/
theorem counter_target_not_top_bidder_counterexample :
    topBidSpec (bidsOf wC6RaceState aid1) = some wRaceBid1 ∧
    wRaceBid1.bidderId = uBuyer ∧
    findCounter (createCounterOffer wC6RaceState aid1 uSeller cid1 12000 30).state cid1
      = some wRaceCounter ∧
    wRaceCounter.buyerId = uBuyer2 ∧
    (sweep wC6RaceState 200).notified = [(uBuyer2, "auction_ended", aid1)] ∧
    uBuyer ≠ uBuyer2 :=
  ⟨by decide, by decide, by decide, by decide, by decide, by decide⟩

/-- C6 amended: the bidder targeted by a successful createCounterOffer and
    the bidder the sweep notifies with auction_ended is the bidder of the
    auction's latest-created bid — the code's `order by createdAt
    descending, limit 1` selection — not in general the spec's top bidder;
    the two selections agree whenever the auction's bid list strictly
    ascends in both amount and createdAt (the shape sequential atomic bid
    acceptance produces), but diverge on race-produced lists or
    equal-createdAt ties. -/
theorem counter_and_sweep_target_latest_bid (s : ServerState) :
    (∀ aid actor cid amount now co,
        findCounter s cid = none →
        findCounter (createCounterOffer s aid actor cid amount now).state cid = some co →
        ∃ b, latestBid (bidsOf s aid) = some b ∧ co.buyerId = b.bidderId) ∧
    (∀ now uid ty aid2,
        (uid, ty, aid2) ∈ (sweep s now).notified →
        ty = "auction_ended" ∧
        ∃ b, latestBid (bidsOf s aid2) = some b ∧ uid = b.bidderId) ∧
    (∀ aid, List.Chain' StrictBidStep (bidsOf s aid) →
        latestBid (bidsOf s aid) = topBidSpec (bidsOf s aid)) := by
  refine ⟨?_, ?_, ?_⟩
  · intro aid actor cid amount now co hnone hsome
    unfold createCounterOffer at hsome
    split at hsome
    · have hcs : findCounter s cid = some co := hsome
      rw [hnone] at hcs
      exact Option.noConfusion hcs
    · split at hsome
      · have hcs : findCounter s cid = some co := hsome
        rw [hnone] at hcs
        exact Option.noConfusion hcs
      · rename_i auction hauct
        split at hsome
        · have hcs : findCounter s cid = some co := hsome
          rw [hnone] at hcs
          exact Option.noConfusion hcs
        · split at hsome
          · have hcs : findCounter s cid = some co := hsome
            rw [hnone] at hcs
            exact Option.noConfusion hcs
          · rename_i tb htb
            have hrow : findCounter
                (insertCounter s ⟨cid, aid, actor, tb.bidderId, amount, CounterStatus.pending, now⟩)
                cid = some ⟨cid, aid, actor, tb.bidderId, amount, CounterStatus.pending, now⟩ := by
              unfold findCounter insertCounter
              rw [List.find?_append]
              have hn : s.counterOffers.find? (fun c => c.id == cid) = none := hnone
              rw [hn]
              simp [List.find?_cons]
            have hcs : findCounter
                (insertCounter s ⟨cid, aid, actor, tb.bidderId, amount, CounterStatus.pending, now⟩)
                cid = some co := hsome
            rw [hrow] at hcs
            have hco := Option.some_inj.mp hcs
            refine ⟨tb, htb, ?_⟩
            rw [← hco]
  · intro now uid ty aid2 hmem
    unfold sweep at hmem
    dsimp only at hmem
    rw [List.mem_filterMap] at hmem
    obtain ⟨a, hamem, heq⟩ := hmem
    obtain ⟨b, hb, hmap⟩ := Option.map_eq_some'.mp heq
    rw [Prod.mk.injEq, Prod.mk.injEq] at hmap
    obtain ⟨hu, hty, ha⟩ := hmap
    constructor
    · exact hty.symm
    · refine ⟨b, ?_, hu.symm⟩
      rw [← ha]
      exact hb
  · intro aid h
    exact latestBid_eq_topBidSpec _
      (List.Chain'.imp (fun a b hab => ⟨hab.1, le_of_lt hab.2⟩) h)

def wSeqCounter : CounterOffer := ⟨cid1, aid1, uSeller, uBuyer, 6000, CounterStatus.pending, 30⟩

/-- C6 amended witness: on a state with one bid, the counter the seller
    creates targets that bid's bidder, and the single-bid list (strictly
    ascending) makes the code's createdAt-descending selection agree with
    the spec's top bid. -/
theorem counter_and_sweep_target_latest_bid_witness :
    (∃ b, latestBid (bidsOf wBidState aid1) = some b ∧ wSeqCounter.buyerId = b.bidderId) ∧
    latestBid (bidsOf wBidState aid1) = topBidSpec (bidsOf wBidState aid1) :=
  ⟨(counter_and_sweep_target_latest_bid wBidState).1 aid1 uSeller cid1 6000 30 wSeqCounter
      (by decide) (by decide),
   (counter_and_sweep_target_latest_bid wBidState).2.2 aid1
      (by
        have hlist : bidsOf wBidState aid1 = [⟨bidId1, aid1, uBuyer, 5500, 10⟩] := by decide
        rw [hlist]
        exact List.chain'_singleton _)⟩

def wC7State : ServerState := ⟨[{ wAuction with endsAt := 100 }], wBidState.bids, [], []⟩

/-- C7 witness: after one sweep ends the expired auction, a second sweep at
    the same instant returns the state unchanged with no broadcasts and no
    notifications. -/
theorem sweep_idempotent_witness :
    sweep (sweep wC7State 200).state 200 = ⟨(sweep wC7State 200).state, [], []⟩ :=
  (sweep_idempotent wC7State 200).2
